import Mathlib

/-!
Verification development for the titan MIPS assembler and unit-test emulator.

The definitions below are a shallow embedding of the source files
src/assembler/assembler.rs, src/assembler/assembler_util.rs and
src/unit/device.rs.  Machine integers (u32, u64, i64) are modelled as Nat
or Int with explicit reduction modulo 2 to the word width at the points
where Rust performs a wrapping cast.  Fallible code returns Except.
Components of the repository that the claims depend on but whose code is
out of scope (the lexer, the binary builder internals, the executor) are
modelled from the specification; every such definition carries a doc
comment starting with the words "Modelled from the spec".
-/

namespace Titan

/-- Modelled from the spec: token kinds produced by the lexer (the lexer
itself is an external collaborator).  Kinds are Symbol, Directive,
Register, IntegerLiteral, StringLiteral, Plus, Minus, Colon, LeftBrace,
RightBrace, NewLine. -/
inductive TokenKind where
  | Symbol (name : String)
  | Directive (name : String)
  | Register (slot : Nat)
  | IntegerLiteral (value : Nat)
  | StringLiteral (value : String)
  | Plus
  | Minus
  | Colon
  | LeftBrace
  | RightBrace
  | NewLine
  deriving DecidableEq, Repr

/-- StrippedKind from lexer.rs: the token kind with its payload dropped,
used inside assembler error values. -/
inductive StrippedKind where
  | Symbol
  | Directive
  | Register
  | IntegerLiteral
  | StringLiteral
  | Plus
  | Minus
  | Colon
  | LeftBrace
  | RightBrace
  | NewLine
  deriving DecidableEq, Repr

/-- TokenKind.strip drops the payload of a token kind. -/
def TokenKind.strip : TokenKind → StrippedKind
  | .Symbol _ => .Symbol
  | .Directive _ => .Directive
  | .Register _ => .Register
  | .IntegerLiteral _ => .IntegerLiteral
  | .StringLiteral _ => .StringLiteral
  | .Plus => .Plus
  | .Minus => .Minus
  | .Colon => .Colon
  | .LeftBrace => .LeftBrace
  | .RightBrace => .RightBrace
  | .NewLine => .NewLine

/-- Token from lexer.rs: a kind together with its source start offset. -/
structure Token where
  start : Nat
  kind : TokenKind
  deriving DecidableEq, Repr

/-- AssemblerReason from assembler/util.rs as imported by assembler.rs
(the variants actually used by the assemble loop and its collaborators). -/
inductive AssemblerReason where
  | UnexpectedToken
  | EndOfFile
  | MissingRegion
  | UnknownInstruction (name : String)
  | UnknownDirective (name : String)
  | UnknownLabel (name : String)
  deriving DecidableEq, Repr

/-- AssemblerError from assembler/util.rs: a reason plus an optional
source offset. -/
structure AssemblerError where
  start : Option Nat
  reason : AssemblerReason
  deriving DecidableEq, Repr

/-- RawRegion from binary.rs: a base address plus the raw bytes of the
region.  Bytes are modelled as Nat. -/
structure RawRegion where
  address : Nat
  data : List Nat
  deriving DecidableEq, Repr

/-- Binary from binary.rs: entry point, ordered regions and the label
table.  The label table (a HashMap in the source) is modelled as an
association list with overwriting insertion. -/
structure Binary where
  entry : Nat
  regions : List RawRegion
  labels : List (String × Nat)
  deriving DecidableEq, Repr

/-- Lookup in the label table. -/
def lookupLabel (name : String) : List (String × Nat) → Option Nat
  | [] => none
  | (k, v) :: rest => if k = name then some v else lookupLabel name rest

/-- HashMap.insert semantics for the label table: a later insertion for
the same key overwrites the earlier binding. -/
def insertLabel (name : String) (pc : Nat) : List (String × Nat) → List (String × Nat)
  | [] => [(name, pc)]
  | (k, v) :: rest =>
    if k = name then (name, pc) :: rest else (k, v) :: insertLabel name pc rest

/-- BinaryBuilderMode from binary.rs: the four section modes. -/
inductive BinaryBuilderMode where
  | Text
  | Data
  | KText
  | KData
  deriving DecidableEq, Repr

/-- Modelled from the spec: the mode-specific base address used when a
mode switch has to start a fresh region.  The concrete values follow the
conventional MIPS layout; no claim depends on them. -/
def modeBase : BinaryBuilderMode → Nat
  | .Text => 0x400000
  | .Data => 0x10010000
  | .KText => 0x80000000
  | .KData => 0x90000000

/-- Modelled from the spec: BinaryBuilder from binary.rs.  It carries the
regions built so far, a per-mode current region index, the current mode,
the label table under construction, pending label fixups (recorded here
only by their label names) and the entry point. -/
structure BinaryBuilder where
  regions : List RawRegion
  modeIndex : BinaryBuilderMode → Option Nat
  mode : BinaryBuilderMode
  labels : List (String × Nat)
  fixups : List String
  entry : Nat

/-- Modelled from the spec: a fresh builder with nothing mounted. -/
def BinaryBuilder.new : BinaryBuilder :=
  ⟨[], fun _ => none, .Text, [], [], 0⟩

/-- Modelled from the spec: seek_mode switches the current mode, starting
a new region with a mode-specific base if none is mounted for that mode. -/
def BinaryBuilder.seek_mode (b : BinaryBuilder) (m : BinaryBuilderMode) : BinaryBuilder :=
  match b.modeIndex m with
  | some _ => { b with mode := m }
  | none =>
    { b with
      mode := m
      regions := b.regions ++ [⟨modeBase m, []⟩]
      modeIndex := fun m2 => if m2 = m then some b.regions.length else b.modeIndex m2 }

/-- The region under construction for the current mode, if any
(BinaryBuilder::region in the source). -/
def BinaryBuilder.region (b : BinaryBuilder) : Option RawRegion :=
  (b.modeIndex b.mode).bind fun i => b.regions.get? i

/-- Modelled from the spec: pass 2 of the assembler resolves every
pending fixup against the label table; a missing label is an UnknownLabel
error, otherwise the finished Binary is produced. -/
def BinaryBuilder.build (b : BinaryBuilder) : Except AssemblerError Binary :=
  match b.fixups.find? (fun n => (lookupLabel n b.labels).isNone) with
  | some n => .error ⟨none, .UnknownLabel n⟩
  | none => .ok ⟨b.entry, b.regions, b.labels⟩

/-- Modelled from the spec: next_any from lexer_seek.rs yields the next
token of any kind, skipping the whitespace-class tokens (newlines) that
separate top-level items. -/
def next_any : List Token → Option (Token × List Token)
  | [] => none
  | t :: rest => if t.kind = .NewLine then next_any rest else some (t, rest)

/-- The type of the instruction-emission callback do_instruction
(emit.rs), which is outside the modelled core: it consumes operand tokens
and appends encoded words to the builder. -/
abbrev DoInstruction :=
  String → List Token → BinaryBuilder → Except AssemblerReason (List Token × BinaryBuilder)

/-- Modelled from the spec: do_instruction specialised to an empty
instruction table, where every mnemonic lookup fails with
UnknownInstruction. -/
def do_instruction_empty : DoInstruction :=
  fun name _toks _builder => .error (.UnknownInstruction name)

/-- Modelled from the spec: the directive handler, restricted to the
mode-switch directives (text, data, ktext, kdata); anything else is an
UnknownDirective.  The emission directives are outside the claims. -/
def do_directive (name : String) (toks : List Token) (builder : BinaryBuilder) :
    Except AssemblerReason (List Token × BinaryBuilder) :=
  if name = "text" then .ok (toks, builder.seek_mode .Text)
  else if name = "data" then .ok (toks, builder.seek_mode .Data)
  else if name = "ktext" then .ok (toks, builder.seek_mode .KText)
  else if name = "kdata" then .ok (toks, builder.seek_mode .KData)
  else .error (.UnknownDirective name)

/-- do_symbol from assembler.rs: requires a mounted region; if the next
adjacent token is a colon the symbol defines a label at the append
address of the current region (base plus length, as u32), inserted into
the label map; otherwise the symbol is an instruction mnemonic. -/
def do_symbol (doInstr : DoInstruction) (name : String) (toks : List Token)
    (builder : BinaryBuilder) : Except AssemblerReason (List Token × BinaryBuilder) :=
  match builder.region with
  | none => .error .MissingRegion
  | some region =>
    match toks.head? with
    | some token =>
      if token.kind = .Colon then
        let pc := (region.address + region.data.length) % 2 ^ 32
        .ok (toks.tail, { builder with labels := insertLabel name pc builder.labels })
      else doInstr name toks builder
    | none => doInstr name toks builder

/-- The assemble loop from assembler.rs, with explicit fuel (each
iteration of the source loop consumes at least one token, so fuel equal
to the token count plus one is enough for the streams our theorems use). -/
def assembleLoop (doInstr : DoInstruction) :
    Nat → List Token → BinaryBuilder → Except AssemblerError Binary
  | 0, _, _ => .error ⟨none, .EndOfFile⟩
  | fuel + 1, toks, builder =>
    match next_any toks with
    | none => builder.build
    | some (token, rest) =>
      let step : Except AssemblerReason (List Token × BinaryBuilder) :=
        match token.kind with
        | .Directive d => do_directive d rest builder
        | .Symbol name => do_symbol doInstr name rest builder
        | _ => .error .UnexpectedToken
      match step with
      | .error r => .error ⟨some token.start, r⟩
      | .ok (toks2, b2) => assembleLoop doInstr fuel toks2 b2

/-- assemble from assembler.rs, specialised to the empty instruction
table (the instructions parameter of the source function left empty):
start in Text mode and iterate the top-level loop, then run pass 2. -/
def assemble (items : List Token) : Except AssemblerError Binary :=
  assembleLoop do_instruction_empty (items.length + 1) items
    (BinaryBuilder.new.seek_mode .Text)

namespace AsmUtil

/-- AssemblerReason from assembler_util.rs (the operand-parsing module),
whose variants carry the stripped kind of the offending token. -/
inductive AssemblerReason where
  | UnexpectedToken (kind : StrippedKind)
  | EndOfFile
  | ExpectedRegister (kind : StrippedKind)
  | ExpectedConstant (kind : StrippedKind)
  | ExpectedString (kind : StrippedKind)
  | ExpectedLabel (kind : StrippedKind)
  | ExpectedNewline (kind : StrippedKind)
  | ExpectedLeftBrace (kind : StrippedKind)
  | ExpectedRightBrace (kind : StrippedKind)
  | ConstantOutOfRange (low high : Nat)
  | OverwriteEdge (pc : Nat) (count : Nat)
  | UnknownLabel (name : String)
  | UnknownDirective (name : String)
  | UnknownInstruction (name : String)
  | JumpOutOfRange (target source : Nat)
  | MissingRegion
  | MissingInstruction
  deriving DecidableEq, Repr

/-- AssemblerError from assembler_util.rs. -/
structure AssemblerError where
  start : Option Nat
  reason : AssemblerReason
  deriving DecidableEq, Repr

/-- AddressLabel from binary.rs: either a resolved constant or a label
name with the source offset of its token. -/
inductive AddressLabel where
  | Constant (value : Nat)
  | Label (name : String) (start : Nat)
  deriving DecidableEq, Repr

/-- OffsetOrLabel from assembler_util.rs: an offset-plus-base operand or
an address operand. -/
inductive OffsetOrLabel where
  | Offset (displacement : Nat) (register : Nat)
  | Address (label : AddressLabel)
  deriving DecidableEq, Repr

/-- default_error from assembler_util.rs: the error start is dropped when
the offending token is a newline. -/
def default_error (reason : AssemblerReason) (token : Token) : AssemblerError :=
  ⟨if token.kind = .NewLine then none else some token.start, reason⟩

/-- The cursor is a list of remaining tokens.  get_token pops the next
adjacent token and reports EndOfFile when the input is exhausted
(get_token and LexerCursor.next_adjacent in the source; the token
vocabulary has no whitespace-class kinds, so next_adjacent pops the
head). -/
def get_token (toks : List Token) : Except AssemblerError (Token × List Token) :=
  match toks with
  | [] => .error ⟨none, .EndOfFile⟩
  | t :: rest => .ok (t, rest)

/-- get_register from assembler_util.rs. -/
def get_register (toks : List Token) : Except AssemblerError (Nat × List Token) :=
  match get_token toks with
  | .error e => .error e
  | .ok (token, rest) =>
    match token.kind with
    | .Register slot => .ok (slot, rest)
    | k => .error (default_error (.ExpectedRegister k.strip) token)

/-- The wrapping cast chain of get_integer for a sign prefix:
the u64 literal is reinterpreted as i64, multiplied by the sign, and the
product reinterpreted as u64; in the integers this is the signed product
reduced modulo 2 to the 64. -/
def applySign (negative : Bool) (value : Nat) : Nat :=
  (((if negative then -(value : Int) else (value : Int))).emod (2 ^ 64)).toNat

/-- get_integer from assembler_util.rs.  The first token has been peeked
at by the caller; toks is the cursor position on entry, which still holds
first as its head exactly when consume is true.  A sign prefix not
followed by an adjacent integer literal resets the cursor and yields
none. -/
def get_integer (first : Token) (toks : List Token) (consume : Bool) :
    Option Nat × List Token :=
  match first.kind with
  | .Plus =>
    let after := if consume then toks.tail else toks
    match after with
    | t :: rest =>
      match t.kind with
      | .IntegerLiteral v => (some (applySign false v), rest)
      | _ => (none, toks)
    | [] => (none, toks)
  | .Minus =>
    let after := if consume then toks.tail else toks
    match after with
    | t :: rest =>
      match t.kind with
      | .IntegerLiteral v => (some (applySign true v), rest)
      | _ => (none, toks)
    | [] => (none, toks)
  | .IntegerLiteral v => (some v, if consume then toks.tail else toks)
  | _ => (none, toks)

/-- to_label from assembler_util.rs: an integer makes a Constant, a
symbol makes a Label, anything else is ExpectedLabel. -/
def to_label (token : Token) (toks : List Token) :
    Except AssemblerError (AddressLabel × List Token) :=
  match get_integer token toks false with
  | (some v, toks2) => .ok (.Constant v, toks2)
  | (none, _) =>
    match token.kind with
    | .Symbol s => .ok (.Label s token.start, toks)
    | k => .error (default_error (.ExpectedLabel k.strip) token)

/-- The seek_without peek used by get_offset_or_label: is the next
adjacent token a left brace? -/
def peekIsLeftBrace (toks : List Token) : Bool :=
  match toks.head? with
  | some t =>
    match t.kind with
    | .LeftBrace => true
    | _ => false
  | none => false

/-- get_offset_or_label from assembler_util.rs: parse an optional integer
displacement; if the next adjacent token is a left brace the operand is
offset-plus-base (displacement defaulting to 0, register inside the
braces, right brace required), otherwise it is an address label or
constant. -/
def get_offset_or_label (toks : List Token) :
    Except AssemblerError (OffsetOrLabel × List Token) :=
  match get_token toks with
  | .error e => .error e
  | .ok (token, rest) =>
    let (value, toks1) := get_integer token rest false
    if peekIsLeftBrace toks1 then
      let displacement := value.getD 0
      let toks2 := toks1.tail
      match get_register toks2 with
      | .error e => .error e
      | .ok (register, toks3) =>
        match toks3 with
        | [] => .error ⟨none, .EndOfFile⟩
        | right :: toks4 =>
          if right.kind = .RightBrace then
            .ok (.Offset displacement register, toks4)
          else
            .error (default_error (.ExpectedRightBrace right.kind.strip) right)
    else
      match to_label token toks1 with
      | .error e => .error e
      | .ok (label, toks2) => .ok (.Address label, toks2)

end AsmUtil

/-- Modelled from the spec: the CPU error taxonomy of cpu/error.rs
(MemoryUnmapped, MemoryAlignment, CpuInvalid, CpuTrap, and the CpuSyscall
sentinel).  device.rs only distinguishes CpuSyscall from the rest. -/
inductive CpuError where
  | MemoryUnmapped (address : Nat)
  | MemoryAlignment (address : Nat)
  | CpuInvalid
  | CpuTrap
  | CpuSyscall
  deriving DecidableEq, Repr

/-- UnitDeviceError from unit/device.rs. -/
inductive UnitDeviceError where
  | MissingLabel (name : String)
  | ExecutionTimedOut
  | InvalidInstruction (error : CpuError)
  | ProgramCompleted
  deriving DecidableEq, Repr

/-- LabelIdentifier from unit/device.rs: a label name plus an i64 byte
offset. -/
structure LabelIdentifier where
  name : String
  offset : Int
  deriving DecidableEq, Repr

/-- StopCondition from unit/device.rs.  Durations are modelled as Nat
(milliseconds). -/
inductive StopCondition where
  | Address (pc : Nat)
  | MaybeLabel (identifier : LabelIdentifier)
  | Label (identifier : LabelIdentifier)
  | Steps (count : Nat)
  | Timeout (duration : Nat)
  | Complete
  deriving DecidableEq, Repr

/-- StopConditionParameters from unit/device.rs. -/
structure StopConditionParameters where
  timeout : Option Nat
  steps : Option Nat
  breakpoints : List Nat
  complete_error : Bool
  deriving DecidableEq, Repr

/-- Iterator.min over a list of naturals: none on an empty list,
otherwise the least element. -/
def minOpt : List Nat → Option Nat
  | [] => none
  | x :: rest =>
    match minOpt rest with
    | none => some x
    | some y => some (min x y)

/-- The address contributed by a resolved label condition:
the u32 label address widened to i64, shifted by the i64 byte offset, and
truncated back to u32 (the `as u32` cast is reduction modulo 2 to the
32). -/
def resolveAddr (address : Nat) (offset : Int) : Nat :=
  (((address : Int) + offset).emod (2 ^ 32)).toNat

/-- The Timeout projection used by StopConditionParameters. -/
def timeoutOf : StopCondition → Option Nat
  | .Timeout d => some d
  | _ => none

/-- The Steps projection used by StopConditionParameters. -/
def stepsOf : StopCondition → Option Nat
  | .Steps n => some n
  | _ => none

/-- The failing-label projection used by StopConditionParameters: a Label
condition whose name does not resolve yields that name. -/
def failedLabelOf (get_label : String → Option Nat) : StopCondition → Option String
  | .Label identifier =>
    if (get_label identifier.name).isNone then some identifier.name else none
  | _ => none

/-- The breakpoint projection used by StopConditionParameters: Address
conditions contribute their pc, Label and MaybeLabel conditions
contribute their resolved address plus offset when the label resolves. -/
def breakpointOf (get_label : String → Option Nat) : StopCondition → Option Nat
  | .Address pc => some pc
  | .MaybeLabel identifier =>
    (get_label identifier.name).map fun x => resolveAddr x identifier.offset
  | .Label identifier =>
    (get_label identifier.name).map fun x => resolveAddr x identifier.offset
  | _ => none

/-- The Complete test used for the complete_error flag. -/
def isCompleteCond : StopCondition → Bool
  | .Complete => true
  | _ => false

/-- StopConditionParameters::from in unit/device.rs: the effective
timeout and step budget are the minima of the respective conditions, a
Label condition with an unresolvable name aborts with MissingLabel (the
first such name in condition order), breakpoints collect Address and
resolved label conditions, and complete_error records the absence of a
Complete condition. -/
def paramsFrom (conditions : List StopCondition) (get_label : String → Option Nat) :
    Except UnitDeviceError StopConditionParameters :=
  let timeout := minOpt (conditions.filterMap timeoutOf)
  let steps := minOpt (conditions.filterMap stepsOf)
  match (conditions.filterMap (failedLabelOf get_label)).head? with
  | some failed => .error (.MissingLabel failed)
  | none =>
    let breakpoints := conditions.filterMap (breakpointOf get_label)
    let complete_error := !(conditions.any isCompleteCond)
    .ok ⟨timeout, steps, breakpoints, complete_error⟩

/-- Modelled from the spec: ExecutorMode of the executor (Running,
Paused, Invalid, Breakpoint); device.rs only matches on Invalid. -/
inductive ExecutorMode where
  | Running
  | Paused
  | Invalid (error : CpuError)
  | Breakpoint (address : Nat)
  deriving DecidableEq, Repr

/-- DebugFrame as consumed by unit/device.rs: the stop mode, the pc of
the register snapshot, and the live value of register V0 that
handle_frame reads through with_state when dispatching a syscall. -/
structure DebugFrame where
  mode : ExecutorMode
  pc : Nat
  v0 : Nat
  deriving DecidableEq, Repr

/-- The UnitDevice data handle_frame depends on: the finished-pc list
computed at construction, the set of registered per-code syscall
handlers (handlers are opaque callables, so only their keys matter
here), and whether a wildcard handler is registered. -/
structure UnitDevice where
  finished_pcs : List Nat
  handlers : List Nat
  has_syscall_handler : Bool
  deriving DecidableEq, Repr

/-- Decidable equality for Except values, used to evaluate the model on
concrete inputs. -/
instance {ε α : Type} [DecidableEq ε] [DecidableEq α] : DecidableEq (Except ε α)
  | .error x, .error y =>
    if h : x = y then .isTrue (by rw [h]) else .isFalse (fun hc => h (Except.error.inj hc))
  | .error _, .ok _ => .isFalse (fun hc => Except.noConfusion hc)
  | .ok _, .error _ => .isFalse (fun hc => Except.noConfusion hc)
  | .ok x, .ok y =>
    if h : x = y then .isTrue (by rw [h]) else .isFalse (fun hc => h (Except.ok.inj hc))

/-- The observable outcome of one handle_frame call: which handler was
invoked, whether invalid_handled was called on the executor, and the
Result value (ok false means the run loop continues, ok true means it
stops successfully). -/
structure HandleOutcome where
  invokedSpecific : Bool
  invokedWildcard : Bool
  invalidHandled : Bool
  result : Except UnitDeviceError Bool
  deriving DecidableEq, Repr

/-- handle_frame from unit/device.rs.  On Invalid(CpuSyscall) the handler
keyed by the current V0 runs, else the wildcard handler, else the frame
is an InvalidInstruction error; after a handled syscall invalid_handled
is called and the loop continues.  On any other Invalid error a pc in
the finished list is ProgramCompleted (or success when a Complete
condition was supplied); other pcs are InvalidInstruction.  Every other
mode stops the loop successfully. -/
def handle_frame (device : UnitDevice) (frame : DebugFrame) (complete_error : Bool) :
    HandleOutcome :=
  match frame.mode with
  | .Invalid e =>
    match e with
    | .CpuSyscall =>
      if device.handlers.contains frame.v0 then
        ⟨true, false, true, .ok false⟩
      else if device.has_syscall_handler then
        ⟨false, true, true, .ok false⟩
      else
        ⟨false, false, false, .error (.InvalidInstruction .CpuSyscall)⟩
    | e =>
      if device.finished_pcs.contains frame.pc then
        if complete_error then
          ⟨false, false, false, .error .ProgramCompleted⟩
        else
          ⟨false, false, false, .ok true⟩
      else
        ⟨false, false, false, .error (.InvalidInstruction e)⟩
  | _ => ⟨false, false, false, .ok true⟩

/-- The run loop of execute_until_slice over the trace of DebugFrames
produced by the executor (the executor itself is outside the modelled
core, so its successive stop frames are the input): an error aborts, ok
true breaks, ok false continues with the next frame.  A trace too short
to reach a stop yields none. -/
def runLoop (device : UnitDevice) (complete_error : Bool) :
    List DebugFrame → Option (Except UnitDeviceError Unit)
  | [] => none
  | frame :: rest =>
    match (handle_frame device frame complete_error).result with
    | .error e => some (.error e)
    | .ok true => some (.ok ())
    | .ok false => runLoop device complete_error rest

/-- execute_until_slice from unit/device.rs over a frame trace:
parameters are derived first (a MissingLabel aborts before any frame is
consumed), the loop runs to its first stop, and on a successful stop the
did-timeout flag (the value the watcher callback left in the shared
atomic, passed here as the value observed after the loop) converts
success into ExecutionTimedOut. -/
def execute_until_slice (device : UnitDevice) (get_label : String → Option Nat)
    (conditions : List StopCondition) (frames : List DebugFrame) (did_timeout : Bool) :
    Option (Except UnitDeviceError Unit) :=
  match paramsFrom conditions get_label with
  | .error e => some (.error e)
  | .ok p =>
    match runLoop device p.complete_error frames with
    | none => none
    | some (.error e) => some (.error e)
    | some (.ok _) => if did_timeout then some (.error .ExecutionTimedOut) else some (.ok ())

/-- Whether the watcher thread of make_timeout observes its cancel flag
at elapsed time t: the flag is set from stopSetAt milliseconds on (none
means it is never set). -/
def stopObserved (stopSetAt : Option Nat) (t : Nat) : Bool :=
  match stopSetAt with
  | some s => s ≤ t
  | none => false

/-- The loop body of the make_timeout watcher thread, sequentially: while
the elapsed time is below the duration, return without firing if the
cancel flag is observed, else sleep 100 milliseconds; once the duration
has elapsed, fire the callback.  Fuel bounds the number of polls; the
entry point passes enough fuel for the loop to reach the duration. -/
def watcherLoop (stopSetAt : Option Nat) (durationMs : Nat) : Nat → Nat → Bool
  | _, 0 => true
  | t, fuel + 1 =>
    if t < durationMs then
      if stopObserved stopSetAt t then false
      else watcherLoop stopSetAt durationMs (t + 100) fuel
    else true

/-- make_timeout from unit/device.rs, reduced to the one observable fact
about the spawned watcher: whether the callback fires, as a function of
the requested duration and of when (if ever) the shared cancel flag is
set. -/
def make_timeout_fires (durationMs : Nat) (stopSetAt : Option Nat) : Bool :=
  watcherLoop stopSetAt durationMs 0 (durationMs / 100 + 1)

/-- The pair of shared flags the timeout callback touches. -/
structure TimeoutFlags where
  did_timeout : Bool
  pause_requested : Bool
  deriving DecidableEq, Repr

/-- The closure execute_until_slice hands to make_timeout: it stores true
into the did-timeout flag and requests a pause on the executor. -/
def timeout_callback (_flags : TimeoutFlags) : TimeoutFlags :=
  ⟨true, true⟩

/-- Register indices used by unit/device.rs (RegisterName to index):
V0 is register 2, A0 register 4, RA register 31. -/
def V0 : Nat := 2

/-- Binary::mount_data from unit/device.rs: push a raw region. -/
def Binary.mount_data (b : Binary) (address : Nat) (data : List Nat) : Binary :=
  { b with regions := b.regions ++ [⟨address, data⟩] }

/-- Binary::mount_constant from unit/device.rs. -/
def Binary.mount_constant (b : Binary) (address : Nat) (count : Nat) (constant : Nat) :
    Binary :=
  b.mount_data address (List.replicate count constant)

/-- Binary::mount from unit/device.rs: a zero-filled region. -/
def Binary.mount (b : Binary) (address : Nat) (count : Nat) : Binary :=
  b.mount_constant address count 0

/-- Binary::mount_display from unit/device.rs: the display framebuffer
region at 0x10008000, size 0x8000. -/
def Binary.mount_display (b : Binary) : Binary :=
  b.mount 0x10008000 0x8000

/-- The finished-pc list computed in UnitDevice::new: for every region of
the Binary, its base address plus its byte length (as u32). -/
def finished_pcs (b : Binary) : List Nat :=
  b.regions.map fun r => (r.address + r.data.length) % 2 ^ 32

/-- The concrete Binary used to refute C2: one region of code. -/
def c2CodeBinary : Binary :=
  ⟨0x400000, [⟨0x400000, [0, 0, 0, 0, 0, 0, 0, 0]⟩], []⟩

theorem minOpt_eq_none_iff (l : List Nat) : minOpt l = none ↔ l = [] := by
  cases l with
  | nil => simp [minOpt]
  | cons x rest =>
    simp only [minOpt]
    cases minOpt rest <;> simp

theorem minOpt_isMin (l : List Nat) (m : Nat) (h : minOpt l = some m) :
    m ∈ l ∧ ∀ x ∈ l, m ≤ x := by
  induction l generalizing m with
  | nil => simp [minOpt] at h
  | cons x rest ih =>
    simp only [minOpt] at h
    cases hr : minOpt rest with
    | none =>
      rw [hr] at h
      have hx : m = x := by injection h with h; omega
      have hrest : rest = [] := (minOpt_eq_none_iff rest).mp hr
      subst hx; subst hrest
      simp
    | some y =>
      rw [hr] at h
      have hm : m = min x y := by injection h with h; omega
      obtain ⟨hymem, hybound⟩ := ih y hr
      constructor
      · rcases Nat.le_total x y with hxy | hyx
        · have : m = x := by omega
          simp [this]
        · have : m = y := by omega
          simp [this, hymem]
      · intro z hz
        rcases List.mem_cons.mp hz with hzx | hzr
        · omega
        · have := hybound z hzr
          omega

theorem mem_filterMap_stepsOf (conds : List StopCondition) (n : Nat) :
    n ∈ conds.filterMap stepsOf ↔ StopCondition.Steps n ∈ conds := by
  rw [List.mem_filterMap]
  constructor
  · rintro ⟨c, hc, he⟩
    cases c <;> simp [stepsOf] at he
    subst he; exact hc
  · intro h
    exact ⟨_, h, rfl⟩

theorem mem_filterMap_timeoutOf (conds : List StopCondition) (d : Nat) :
    d ∈ conds.filterMap timeoutOf ↔ StopCondition.Timeout d ∈ conds := by
  rw [List.mem_filterMap]
  constructor
  · rintro ⟨c, hc, he⟩
    cases c <;> simp [timeoutOf] at he
    subst he; exact hc
  · intro h
    exact ⟨_, h, rfl⟩

theorem any_isCompleteCond (conds : List StopCondition) :
    conds.any isCompleteCond = true ↔ StopCondition.Complete ∈ conds := by
  rw [List.any_eq_true]
  constructor
  · rintro ⟨c, hc, he⟩
    cases c <;> simp [isCompleteCond] at he
    exact hc
  · intro h
    exact ⟨_, h, rfl⟩

theorem paramsFrom_ok_inv (conds : List StopCondition) (get_label : String → Option Nat)
    (p : StopConditionParameters) (h : paramsFrom conds get_label = .ok p) :
    (conds.filterMap (failedLabelOf get_label)).head? = none
    ∧ p.timeout = minOpt (conds.filterMap timeoutOf)
    ∧ p.steps = minOpt (conds.filterMap stepsOf)
    ∧ p.breakpoints = conds.filterMap (breakpointOf get_label)
    ∧ p.complete_error = !(conds.any isCompleteCond) := by
  unfold paramsFrom at h
  cases hh : (conds.filterMap (failedLabelOf get_label)).head? with
  | some f =>
    rw [hh] at h
    exact Except.noConfusion h
  | none =>
    rw [hh] at h
    injection h with h
    subst h
    exact ⟨rfl, rfl, rfl, rfl, rfl⟩

theorem paramsFrom_error_inv (conds : List StopCondition) (get_label : String → Option Nat)
    (name : String)
    (h : (conds.filterMap (failedLabelOf get_label)).head? = some name) :
    paramsFrom conds get_label = .error (.MissingLabel name) := by
  unfold paramsFrom
  rw [h]

theorem lookupLabel_insertLabel_self (name : String) (pc : Nat) (l : List (String × Nat)) :
    lookupLabel name (insertLabel name pc l) = some pc := by
  induction l with
  | nil => simp [insertLabel, lookupLabel]
  | cons kv rest ih =>
    obtain ⟨k, v⟩ := kv
    by_cases h : k = name <;> simp [insertLabel, lookupLabel, h, ih]

/-- C8: a Symbol followed on the same line by a colon defines a label at
the append address of the current region (base plus length), and the
label definition fails with MissingRegion when no region is mounted. -/
theorem C8_do_symbol_label (doInstr : DoInstruction) (name : String) (toks : List Token)
    (builder : BinaryBuilder) :
    (builder.region = none → do_symbol doInstr name toks builder = .error .MissingRegion)
    ∧ (∀ r tk, builder.region = some r → toks.head? = some tk → tk.kind = .Colon →
        ∃ b2, do_symbol doInstr name toks builder = .ok (toks.tail, b2)
          ∧ b2.labels =
              insertLabel name ((r.address + r.data.length) % 2 ^ 32) builder.labels
          ∧ lookupLabel name b2.labels =
              some ((r.address + r.data.length) % 2 ^ 32)) := by
  constructor
  · intro h
    unfold do_symbol
    rw [h]
  · intro r tk hr hh hk
    refine ⟨{ builder with labels := insertLabel name ((r.address + r.data.length) % 2 ^ 32) builder.labels }, ?_, rfl, lookupLabel_insertLabel_self name _ builder.labels⟩
    unfold do_symbol
    rw [hr]
    cases toks with
    | nil => simp at hh
    | cons t rest =>
      simp only [List.head?] at hh
      injection hh with hh
      subst hh
      simp [hk]

theorem C8_do_symbol_label_witness :
    (do_symbol do_instruction_empty "f" [] BinaryBuilder.new = .error .MissingRegion)
    ∧ (∃ b2,
        do_symbol do_instruction_empty "f" [⟨1, .Colon⟩] (BinaryBuilder.new.seek_mode .Text) =
          .ok ([], b2)
        ∧ lookupLabel "f" b2.labels = some 0x400000) := by
  constructor
  · exact (C8_do_symbol_label do_instruction_empty "f" [] BinaryBuilder.new).1 rfl
  · obtain ⟨b2, hrun, _, hlook⟩ :=
      (C8_do_symbol_label do_instruction_empty "f" [⟨1, .Colon⟩]
        (BinaryBuilder.new.seek_mode .Text)).2 ⟨0x400000, []⟩ ⟨1, .Colon⟩ rfl rfl rfl
    exact ⟨b2, hrun, hlook⟩

/-- C1 counterexample: a token stream with two identical label
definitions assembles successfully to a Binary (with the later insertion
in force) instead of failing with a fatal assembler error. -/
theorem C1_counterexample :
    assemble [⟨0, .Symbol "a"⟩, ⟨1, .Colon⟩, ⟨2, .Symbol "a"⟩, ⟨3, .Colon⟩] =
      .ok ⟨0, [⟨0x400000, []⟩], [("a", 0x400000)]⟩ := by
  rfl

/-- C1 amended: duplicate label definitions are not fatal; the later
definition overwrites the earlier binding in the label map (last wins),
and do_symbol succeeds on a symbol whose name is already bound. -/
theorem C1_duplicate_label_overwrites (doInstr : DoInstruction) (name : String)
    (toks : List Token) (builder : BinaryBuilder) (r : RawRegion) (old : Nat) (tk : Token)
    (hr : builder.region = some r)
    (_hdup : lookupLabel name builder.labels = some old)
    (hh : toks.head? = some tk) (hk : tk.kind = .Colon) :
    ∃ b2, do_symbol doInstr name toks builder = .ok (toks.tail, b2)
      ∧ lookupLabel name b2.labels = some ((r.address + r.data.length) % 2 ^ 32) := by
  obtain ⟨b2, hrun, _, hlook⟩ :=
    (C8_do_symbol_label doInstr name toks builder).2 r tk hr hh hk
  exact ⟨b2, hrun, hlook⟩

theorem C1_duplicate_label_overwrites_witness :
    ∃ b2,
      do_symbol do_instruction_empty "a" [⟨3, .Colon⟩]
        { BinaryBuilder.new.seek_mode .Text with labels := [("a", 7)] } =
        .ok ([], b2)
      ∧ lookupLabel "a" b2.labels = some 0x400000 :=
  C1_duplicate_label_overwrites do_instruction_empty "a" [⟨3, .Colon⟩]
    { BinaryBuilder.new.seek_mode .Text with labels := [("a", 7)] }
    ⟨0x400000, []⟩ 7 ⟨3, .Colon⟩ rfl rfl rfl rfl

/-- C2 counterexample: after mounting a data region that holds a word of
data and no instructions (the .data word of the specification's second
scenario, mounted through Binary::mount_data), UnitDevice construction
puts the end address of that non-code region into the finished-pc set as
well; the set computed from the code region alone does not contain it. -/
theorem C2_counterexample :
    0x10010004 ∈ finished_pcs (c2CodeBinary.mount_data 0x10010000 [0xEF, 0xBE, 0xAD, 0xDE])
    ∧ 0x10010004 ∉ finished_pcs c2CodeBinary := by
  decide

/-- C2 amended: the finished-pc set computed at UnitDevice construction
contains exactly the addresses base plus length of every region of the
Binary, whether the region holds code or data. -/
theorem C2_finished_pcs_all_regions (b : Binary) (pc : Nat) :
    pc ∈ finished_pcs b ↔ ∃ r ∈ b.regions, pc = (r.address + r.data.length) % 2 ^ 32 := by
  simp only [finished_pcs, List.mem_map]
  constructor
  · rintro ⟨r, hr, he⟩
    exact ⟨r, hr, he.symm⟩
  · rintro ⟨r, hr, he⟩
    exact ⟨r, hr, he.symm⟩

theorem failedLabelOf_eq_some (get_label : String → Option Nat) (c : StopCondition)
    (name : String) :
    failedLabelOf get_label c = some name ↔
      (∃ off, c = .Label ⟨name, off⟩) ∧ get_label name = none := by
  cases c with
  | Label id =>
    obtain ⟨n, off⟩ := id
    constructor
    · intro h
      simp only [failedLabelOf] at h
      by_cases hg : (get_label n).isNone
      · rw [if_pos hg] at h
        injection h with h
        subst h
        exact ⟨⟨off, rfl⟩, Option.isNone_iff_eq_none.mp hg⟩
      · rw [if_neg hg] at h
        exact Option.noConfusion h
    · rintro ⟨⟨off2, he⟩, hnone⟩
      have hn : n = name := by
        have h2 := StopCondition.Label.inj he
        exact (LabelIdentifier.mk.injEq n off name off2).mp h2 |>.1
      subst hn
      simp only [failedLabelOf]
      rw [if_pos (Option.isNone_iff_eq_none.mpr hnone)]
  | Address pc => simp [failedLabelOf]
  | MaybeLabel id => simp [failedLabelOf]
  | Steps n => simp [failedLabelOf]
  | Timeout d => simp [failedLabelOf]
  | Complete => simp [failedLabelOf]

theorem breakpointOf_eq_some (get_label : String → Option Nat) (c : StopCondition)
    (pc : Nat) :
    breakpointOf get_label c = some pc ↔
      (c = .Address pc
        ∨ ∃ id a, (c = .Label id ∨ c = .MaybeLabel id)
            ∧ get_label id.name = some a ∧ pc = resolveAddr a id.offset) := by
  cases c with
  | Address a =>
    simp only [breakpointOf, Option.some.injEq]
    constructor
    · intro h
      exact Or.inl (by rw [h])
    · rintro (h | ⟨id, a2, (h | h), _, _⟩)
      · cases h
        rfl
      · exact StopCondition.noConfusion h
      · exact StopCondition.noConfusion h
  | Label id =>
    simp only [breakpointOf, Option.map_eq_some']
    constructor
    · rintro ⟨a, ha, he⟩
      exact Or.inr ⟨id, a, Or.inl rfl, ha, he.symm⟩
    · rintro (h | ⟨id2, a, (h | h), ha, he⟩)
      · exact StopCondition.noConfusion h
      · injection h with h
        subst h
        exact ⟨a, ha, he.symm⟩
      · exact StopCondition.noConfusion h
  | MaybeLabel id =>
    simp only [breakpointOf, Option.map_eq_some']
    constructor
    · rintro ⟨a, ha, he⟩
      exact Or.inr ⟨id, a, Or.inr rfl, ha, he.symm⟩
    · rintro (h | ⟨id2, a, (h | h), ha, he⟩)
      · exact StopCondition.noConfusion h
      · exact StopCondition.noConfusion h
      · injection h with h
        subst h
        exact ⟨a, ha, he.symm⟩
  | Steps n =>
    simp only [breakpointOf]
    constructor
    · intro h
      exact Option.noConfusion h
    · rintro (h | ⟨id, a, (h | h), _, _⟩) <;> exact StopCondition.noConfusion h
  | Timeout d =>
    simp only [breakpointOf]
    constructor
    · intro h
      exact Option.noConfusion h
    · rintro (h | ⟨id, a, (h | h), _, _⟩) <;> exact StopCondition.noConfusion h
  | Complete =>
    simp only [breakpointOf]
    constructor
    · intro h
      exact Option.noConfusion h
    · rintro (h | ⟨id, a, (h | h), _, _⟩) <;> exact StopCondition.noConfusion h

/-- C4: the derived execution parameters take the minimum step budget
over all Steps conditions (absent when there is none), the minimum
timeout over all Timeout conditions (absent when there is none), and the
complete-ok flag (complete_error equal to false) is set exactly when a
Complete condition is present. -/
theorem C4_parameters_minima (conds : List StopCondition) (get_label : String → Option Nat)
    (p : StopConditionParameters) (hp : paramsFrom conds get_label = .ok p) :
    (p.steps = none ↔ ∀ n, StopCondition.Steps n ∉ conds)
    ∧ (∀ m, p.steps = some m →
        StopCondition.Steps m ∈ conds ∧ ∀ n, StopCondition.Steps n ∈ conds → m ≤ n)
    ∧ (p.timeout = none ↔ ∀ d, StopCondition.Timeout d ∉ conds)
    ∧ (∀ d, p.timeout = some d →
        StopCondition.Timeout d ∈ conds ∧ ∀ d2, StopCondition.Timeout d2 ∈ conds → d ≤ d2)
    ∧ (p.complete_error = false ↔ StopCondition.Complete ∈ conds) := by
  obtain ⟨-, htime, hsteps, -, hce⟩ := paramsFrom_ok_inv conds get_label p hp
  refine ⟨?_, ?_, ?_, ?_, ?_⟩
  · rw [hsteps, minOpt_eq_none_iff]
    constructor
    · intro h n hn
      have hmem := (mem_filterMap_stepsOf conds n).mpr hn
      rw [h] at hmem
      simp at hmem
    · intro h
      by_contra hne
      obtain ⟨x, hx⟩ := List.exists_mem_of_ne_nil _ hne
      exact h x ((mem_filterMap_stepsOf conds x).mp hx)
  · intro m hm
    rw [hsteps] at hm
    obtain ⟨hmem, hbound⟩ := minOpt_isMin _ m hm
    exact ⟨(mem_filterMap_stepsOf conds m).mp hmem,
      fun n hn => hbound n ((mem_filterMap_stepsOf conds n).mpr hn)⟩
  · rw [htime, minOpt_eq_none_iff]
    constructor
    · intro h d hd
      have hmem := (mem_filterMap_timeoutOf conds d).mpr hd
      rw [h] at hmem
      simp at hmem
    · intro h
      by_contra hne
      obtain ⟨x, hx⟩ := List.exists_mem_of_ne_nil _ hne
      exact h x ((mem_filterMap_timeoutOf conds x).mp hx)
  · intro d hd
    rw [htime] at hd
    obtain ⟨hmem, hbound⟩ := minOpt_isMin _ d hd
    exact ⟨(mem_filterMap_timeoutOf conds d).mp hmem,
      fun d2 hd2 => hbound d2 ((mem_filterMap_timeoutOf conds d2).mpr hd2)⟩
  · rw [hce]
    cases hA : conds.any isCompleteCond with
    | false =>
      simp only [Bool.not_false]
      constructor
      · intro h
        exact absurd h (by simp)
      · intro h
        have := (any_isCompleteCond conds).mpr h
        rw [hA] at this
        exact absurd this (by simp)
    | true =>
      simp only [Bool.not_true]
      constructor
      · intro _h
        exact (any_isCompleteCond conds).mp hA
      · intro _h
        trivial

theorem C4_parameters_minima_witness :
    StopCondition.Steps 3 ∈
        [StopCondition.Steps 5, StopCondition.Timeout 9, StopCondition.Steps 3,
          StopCondition.Timeout 7, StopCondition.Complete]
    ∧ (3 : Nat) ≤ 5
    ∧ StopCondition.Timeout 7 ∈
        [StopCondition.Steps 5, StopCondition.Timeout 9, StopCondition.Steps 3,
          StopCondition.Timeout 7, StopCondition.Complete]
    ∧ (7 : Nat) ≤ 9 := by
  have h := C4_parameters_minima
    [StopCondition.Steps 5, StopCondition.Timeout 9, StopCondition.Steps 3,
      StopCondition.Timeout 7, StopCondition.Complete]
    (fun _ => none) ⟨some 7, some 3, [], false⟩ (by decide)
  obtain ⟨-, hsteps, -, htime, -⟩ := h
  obtain ⟨hs3, hsb⟩ := hsteps 3 rfl
  obtain ⟨ht7, htb⟩ := htime 7 rfl
  exact ⟨hs3, hsb 5 (by decide), ht7, htb 9 (by decide)⟩

/-- C5: a Label condition naming a label absent from the label table
makes parameter construction fail with MissingLabel before any frame of
the execution is consumed; a MaybeLabel with an absent name contributes
nothing; and on success the breakpoint set consists exactly of every
Address condition plus, for each resolved Label or MaybeLabel, the label
address plus the byte offset (as u32). -/
theorem C5_label_resolution (conds : List StopCondition) (get_label : String → Option Nat) :
    ((∃ id, StopCondition.Label id ∈ conds ∧ get_label id.name = none) →
      ∃ name, paramsFrom conds get_label = .error (.MissingLabel name)
        ∧ get_label name = none
        ∧ (∃ off, StopCondition.Label ⟨name, off⟩ ∈ conds)
        ∧ ∀ device frames dt,
            execute_until_slice device get_label conds frames dt =
              some (.error (.MissingLabel name)))
    ∧ (∀ p, paramsFrom conds get_label = .ok p →
        ∀ pc, pc ∈ p.breakpoints ↔
          (StopCondition.Address pc ∈ conds
            ∨ ∃ id a,
                (StopCondition.Label id ∈ conds ∨ StopCondition.MaybeLabel id ∈ conds)
                ∧ get_label id.name = some a ∧ pc = resolveAddr a id.offset)) := by
  constructor
  · rintro ⟨id, hmem, hnone⟩
    have hin : id.name ∈ conds.filterMap (failedLabelOf get_label) := by
      refine List.mem_filterMap.mpr ⟨.Label id, hmem, ?_⟩
      rw [failedLabelOf_eq_some]
      exact ⟨⟨id.offset, rfl⟩, hnone⟩
    cases hl : conds.filterMap (failedLabelOf get_label) with
    | nil => rw [hl] at hin; simp at hin
    | cons x xs =>
      have hhead : (conds.filterMap (failedLabelOf get_label)).head? = some x := by
        rw [hl]; rfl
      have hx : x ∈ conds.filterMap (failedLabelOf get_label) := by
        rw [hl]; exact List.mem_cons_self x xs
      obtain ⟨c, hc, hcx⟩ := List.mem_filterMap.mp hx
      obtain ⟨⟨off, hcL⟩, hxnone⟩ := (failedLabelOf_eq_some get_label c x).mp hcx
      have hperr := paramsFrom_error_inv conds get_label x hhead
      refine ⟨x, hperr, hxnone, ⟨off, by rw [← hcL]; exact hc⟩, ?_⟩
      intro device frames dt
      unfold execute_until_slice
      rw [hperr]
  · intro p hp pc
    obtain ⟨-, -, -, hbps, -⟩ := paramsFrom_ok_inv conds get_label p hp
    rw [hbps, List.mem_filterMap]
    constructor
    · rintro ⟨c, hc, hcp⟩
      rcases (breakpointOf_eq_some get_label c pc).mp hcp with h | ⟨id, a, hcl, ha, he⟩
      · subst h
        exact Or.inl hc
      · rcases hcl with h | h
        · subst h
          exact Or.inr ⟨id, a, Or.inl hc, ha, he⟩
        · subst h
          exact Or.inr ⟨id, a, Or.inr hc, ha, he⟩
    · rintro (h | ⟨id, a, (h | h), ha, he⟩)
      · exact ⟨.Address pc, h, rfl⟩
      · exact ⟨.Label id, h,
          (breakpointOf_eq_some get_label _ pc).mpr (Or.inr ⟨id, a, Or.inl rfl, ha, he⟩)⟩
      · exact ⟨.MaybeLabel id, h,
          (breakpointOf_eq_some get_label _ pc).mpr (Or.inr ⟨id, a, Or.inr rfl, ha, he⟩)⟩

theorem C5_label_resolution_witness :
    paramsFrom [StopCondition.Label ⟨"missing", 0⟩] (fun _ => none) =
        .error (.MissingLabel "missing")
    ∧ execute_until_slice ⟨[], [], false⟩ (fun _ => none)
        [StopCondition.Label ⟨"missing", 0⟩] [] false =
        some (.error (.MissingLabel "missing"))
    ∧ (41 : Nat) ∈
        (⟨none, none, [7, 41], true⟩ : StopConditionParameters).breakpoints := by
  have h1 := (C5_label_resolution [StopCondition.Label ⟨"missing", 0⟩] (fun _ => none)).1
    ⟨⟨"missing", 0⟩, by simp, rfl⟩
  obtain ⟨name, hperr, -, -, hex⟩ := h1
  have hname : name = "missing" := by
    have hconc : paramsFrom [StopCondition.Label ⟨"missing", 0⟩] (fun _ => none) =
        .error (.MissingLabel "missing") := rfl
    have h2 := Except.error.inj (hconc.symm.trans hperr)
    exact (UnitDeviceError.MissingLabel.inj h2).symm
  subst hname
  refine ⟨hperr, hex ⟨[], [], false⟩ [] false, ?_⟩
  have h3 := (C5_label_resolution
      [StopCondition.Address 7, StopCondition.MaybeLabel ⟨"x", 1⟩]
      (fun s => if s = "x" then some 40 else none)).2
    ⟨none, none, [7, 41], true⟩ (by decide) 41
  exact h3.mpr (Or.inr ⟨⟨"x", 1⟩, 40, Or.inr (by simp), by simp, by decide⟩)

theorem handle_frame_invalid_not_syscall (device : UnitDevice) (e : CpuError)
    (pc v0 : Nat) (ce : Bool) (he : e ≠ .CpuSyscall) :
    handle_frame device ⟨.Invalid e, pc, v0⟩ ce =
      if device.finished_pcs.contains pc then
        if ce then ⟨false, false, false, .error .ProgramCompleted⟩
        else ⟨false, false, false, .ok true⟩
      else ⟨false, false, false, .error (.InvalidInstruction e)⟩ := by
  cases e <;> first | rfl | exact absurd rfl he

/-- C3: a frame with an Invalid mode other than CpuSyscall whose pc lies
in the finished-pc set makes execute_until_slice return the
ProgramCompleted error when no Complete condition was supplied, and makes
handle_frame stop the loop successfully (with execute_until_slice
succeeding) when a Complete condition was supplied. -/
theorem C3_finished_pc (device : UnitDevice) (get_label : String → Option Nat)
    (conds : List StopCondition) (p : StopConditionParameters) (e : CpuError)
    (pc v0 : Nat)
    (he : e ≠ .CpuSyscall) (hpc : device.finished_pcs.contains pc = true)
    (hp : paramsFrom conds get_label = .ok p) :
    (StopCondition.Complete ∉ conds →
      ∀ dt, execute_until_slice device get_label conds [⟨.Invalid e, pc, v0⟩] dt =
        some (.error .ProgramCompleted))
    ∧ (StopCondition.Complete ∈ conds →
      (handle_frame device ⟨.Invalid e, pc, v0⟩ p.complete_error).result = .ok true
      ∧ execute_until_slice device get_label conds [⟨.Invalid e, pc, v0⟩] false =
        some (.ok ())) := by
  obtain ⟨-, -, -, -, hce⟩ := paramsFrom_ok_inv conds get_label p hp
  have hhf := handle_frame_invalid_not_syscall device e pc v0 p.complete_error he
  constructor
  · intro hnmem dt
    have hany : conds.any isCompleteCond = false := by
      cases hA : conds.any isCompleteCond
      · rfl
      · exact absurd ((any_isCompleteCond conds).mp hA) hnmem
    have hcet : p.complete_error = true := by
      rw [hce, hany]
      rfl
    have hres : handle_frame device ⟨.Invalid e, pc, v0⟩ p.complete_error =
        ⟨false, false, false, .error .ProgramCompleted⟩ := by
      rw [hhf, hcet, if_pos hpc, if_pos rfl]
    simp only [execute_until_slice, hp, runLoop, hres]
  · intro hmem
    have hany : conds.any isCompleteCond = true := (any_isCompleteCond conds).mpr hmem
    have hcef : p.complete_error = false := by
      rw [hce, hany]
      rfl
    have hres : handle_frame device ⟨.Invalid e, pc, v0⟩ p.complete_error =
        ⟨false, false, false, .ok true⟩ := by
      rw [hhf, hcef, if_pos hpc, if_neg (by decide)]
    constructor
    · rw [hres]
    · simp only [execute_until_slice, hp, runLoop, hres]
      rfl

theorem C3_finished_pc_witness :
    execute_until_slice ⟨[4], [], false⟩ (fun _ => none) []
        [⟨.Invalid .CpuInvalid, 4, 0⟩] false = some (.error .ProgramCompleted)
    ∧ execute_until_slice ⟨[4], [], false⟩ (fun _ => none) [StopCondition.Complete]
        [⟨.Invalid .CpuInvalid, 4, 0⟩] false = some (.ok ()) := by
  constructor
  · exact (C3_finished_pc ⟨[4], [], false⟩ (fun _ => none) [] ⟨none, none, [], true⟩
      .CpuInvalid 4 0 (by decide) (by decide) rfl).1 (by simp) false
  · exact ((C3_finished_pc ⟨[4], [], false⟩ (fun _ => none) [StopCondition.Complete]
      ⟨none, none, [], false⟩ .CpuInvalid 4 0 (by decide) (by decide) rfl).2
      (by simp)).2

/-- C6: on Invalid(CpuSyscall) the handler registered for the current V0
value is invoked when present, else the wildcard handler when registered;
in both cases invalid_handled is called and the run loop continues with
the next frame; when neither handler exists the run fails with
InvalidInstruction(CpuSyscall). -/
theorem C6_syscall_dispatch (device : UnitDevice) (pc v0 : Nat) (ce : Bool) :
    (device.handlers.contains v0 = true →
      handle_frame device ⟨.Invalid .CpuSyscall, pc, v0⟩ ce =
        ⟨true, false, true, .ok false⟩
      ∧ ∀ rest, runLoop device ce (⟨.Invalid .CpuSyscall, pc, v0⟩ :: rest) =
          runLoop device ce rest)
    ∧ (device.handlers.contains v0 = false → device.has_syscall_handler = true →
      handle_frame device ⟨.Invalid .CpuSyscall, pc, v0⟩ ce =
        ⟨false, true, true, .ok false⟩
      ∧ ∀ rest, runLoop device ce (⟨.Invalid .CpuSyscall, pc, v0⟩ :: rest) =
          runLoop device ce rest)
    ∧ (device.handlers.contains v0 = false → device.has_syscall_handler = false →
      (handle_frame device ⟨.Invalid .CpuSyscall, pc, v0⟩ ce).result =
        .error (.InvalidInstruction .CpuSyscall)
      ∧ ∀ get_label conds frames dt p, paramsFrom conds get_label = .ok p →
          execute_until_slice device get_label conds
            (⟨.Invalid .CpuSyscall, pc, v0⟩ :: frames) dt =
            some (.error (.InvalidInstruction .CpuSyscall))) := by
  refine ⟨?_, ?_, ?_⟩
  · intro hcont
    have hres : handle_frame device ⟨.Invalid .CpuSyscall, pc, v0⟩ ce =
        ⟨true, false, true, .ok false⟩ := by
      simp only [handle_frame]
      rw [hcont]
      rfl
    refine ⟨hres, fun rest => ?_⟩
    simp only [runLoop, hres]
  · intro hcont hwild
    have hres : handle_frame device ⟨.Invalid .CpuSyscall, pc, v0⟩ ce =
        ⟨false, true, true, .ok false⟩ := by
      simp only [handle_frame]
      rw [hcont, hwild]
      rfl
    refine ⟨hres, fun rest => ?_⟩
    simp only [runLoop, hres]
  · intro hcont hwild
    have hres : handle_frame device ⟨.Invalid .CpuSyscall, pc, v0⟩ ce =
        ⟨false, false, false, .error (.InvalidInstruction .CpuSyscall)⟩ := by
      simp only [handle_frame]
      rw [hcont, hwild]
      rfl
    refine ⟨by rw [hres], ?_⟩
    intro get_label conds frames dt p hp
    have hce : ∀ ce2, handle_frame device ⟨.Invalid .CpuSyscall, pc, v0⟩ ce2 =
        ⟨false, false, false, .error (.InvalidInstruction .CpuSyscall)⟩ := by
      intro ce2
      simp only [handle_frame]
      rw [hcont, hwild]
      rfl
    simp only [execute_until_slice, hp, runLoop, hce]

theorem C6_syscall_dispatch_witness :
    handle_frame ⟨[], [5], false⟩ ⟨.Invalid .CpuSyscall, 0, 5⟩ true =
        ⟨true, false, true, .ok false⟩
    ∧ handle_frame ⟨[], [], true⟩ ⟨.Invalid .CpuSyscall, 0, 5⟩ true =
        ⟨false, true, true, .ok false⟩
    ∧ execute_until_slice ⟨[], [], false⟩ (fun _ => none) []
        [⟨.Invalid .CpuSyscall, 0, 5⟩] false =
        some (.error (.InvalidInstruction .CpuSyscall)) := by
  refine ⟨?_, ?_, ?_⟩
  · exact ((C6_syscall_dispatch ⟨[], [5], false⟩ 0 5 true).1 (by decide)).1
  · exact ((C6_syscall_dispatch ⟨[], [], true⟩ 0 5 true).2.1 (by decide) rfl).1
  · exact ((C6_syscall_dispatch ⟨[], [], false⟩ 0 5 true).2.2 (by decide) rfl).2
      (fun _ => none) [] [] false ⟨none, none, [], true⟩ rfl

theorem watcherLoop_none_fires (durationMs : Nat) :
    ∀ fuel t, watcherLoop none durationMs t fuel = true := by
  intro fuel
  induction fuel with
  | zero =>
    intro t
    rfl
  | succ f ih =>
    intro t
    simp only [watcherLoop]
    by_cases h : t < durationMs
    · rw [if_pos h]
      simpa [stopObserved] using ih (t + 100)
    · rw [if_neg h]

/-- C7: the watcher modelled from make_timeout fires once the duration
elapses when never cancelled and does not fire when the shared cancel
flag is set before its first poll; the callback handed to it sets the
did-timeout flag and requests a pause; a timeout parameter is derived
exactly when a Timeout condition is present; and when the run loop stops
successfully, execute_until_slice returns ExecutionTimedOut exactly when
the did-timeout flag was observed set, and success exactly otherwise. -/
theorem C7_timeout (durationMs : Nat) (device : UnitDevice)
    (get_label : String → Option Nat) (conds : List StopCondition)
    (frames : List DebugFrame) (p : StopConditionParameters)
    (hd : 0 < durationMs)
    (hp : paramsFrom conds get_label = .ok p)
    (hloop : runLoop device p.complete_error frames = some (.ok ())) :
    make_timeout_fires durationMs none = true
    ∧ make_timeout_fires durationMs (some 0) = false
    ∧ (timeout_callback ⟨false, false⟩).did_timeout = true
    ∧ (timeout_callback ⟨false, false⟩).pause_requested = true
    ∧ (p.timeout.isSome = true ↔ ∃ d, StopCondition.Timeout d ∈ conds)
    ∧ (∀ dt, execute_until_slice device get_label conds frames dt =
        some (.error .ExecutionTimedOut) ↔ dt = true)
    ∧ (∀ dt, execute_until_slice device get_label conds frames dt =
        some (.ok ()) ↔ dt = false) := by
  obtain ⟨-, htime, -, -, -⟩ := paramsFrom_ok_inv conds get_label p hp
  refine ⟨watcherLoop_none_fires durationMs _ 0, ?_, rfl, rfl, ?_, ?_, ?_⟩
  · unfold make_timeout_fires
    simp only [watcherLoop]
    rw [if_pos hd]
    simp [stopObserved]
  · constructor
    · intro h
      obtain ⟨d, hdval⟩ := Option.isSome_iff_exists.mp h
      rw [htime] at hdval
      obtain ⟨hmem, -⟩ := minOpt_isMin _ d hdval
      exact ⟨d, (mem_filterMap_timeoutOf conds d).mp hmem⟩
    · rintro ⟨d, hmem⟩
      have hin : d ∈ conds.filterMap timeoutOf := (mem_filterMap_timeoutOf conds d).mpr hmem
      have hne : conds.filterMap timeoutOf ≠ [] := List.ne_nil_of_mem hin
      rw [htime]
      cases hmo : minOpt (conds.filterMap timeoutOf) with
      | none => exact absurd ((minOpt_eq_none_iff _).mp hmo) hne
      | some y => rfl
  · intro dt
    simp only [execute_until_slice, hp, hloop]
    cases dt <;> simp
  · intro dt
    simp only [execute_until_slice, hp, hloop]
    cases dt <;> simp

theorem C7_timeout_witness :
    make_timeout_fires 250 none = true
    ∧ make_timeout_fires 250 (some 0) = false
    ∧ execute_until_slice ⟨[], [], false⟩ (fun _ => none) [StopCondition.Timeout 250]
        [⟨.Paused, 0, 0⟩] true = some (.error .ExecutionTimedOut)
    ∧ execute_until_slice ⟨[], [], false⟩ (fun _ => none) [StopCondition.Timeout 250]
        [⟨.Paused, 0, 0⟩] false = some (.ok ()) := by
  have h := C7_timeout 250 ⟨[], [], false⟩ (fun _ => none) [StopCondition.Timeout 250]
    [⟨.Paused, 0, 0⟩] ⟨some 250, none, [], true⟩ (by decide) rfl rfl
  obtain ⟨h1, h2, -, -, -, h6, h7⟩ := h
  exact ⟨h1, h2, (h6 true).mpr rfl, (h7 false).mpr rfl⟩

/-- C9 counterexample: for the operand `( reg )` the displacement is
absent and the next adjacent token of the operand is the left brace, yet
get_offset_or_label does not produce an offset-plus-base operand with
displacement 0: the leading left brace is itself consumed as the
displacement candidate and the parse fails with ExpectedLabel. -/
theorem C9_counterexample :
    AsmUtil.get_offset_or_label [⟨0, .LeftBrace⟩, ⟨1, .Register 8⟩, ⟨2, .RightBrace⟩] =
      .error ⟨some 0, .ExpectedLabel .LeftBrace⟩ := by
  rfl

/-- C9 amended: get_offset_or_label first consumes one token and tries to
read it (with an optional sign prefix) as the integer displacement; the
operand is offset-plus-base exactly when the token adjacent after that
attempt is a left brace, the displacement being the parsed integer or 0
when the consumed token did not parse as one (such as a bare sign); a
missing right brace yields ExpectedRightBrace and exhausted input yields
EndOfFile; when no left brace follows, the consumed token is parsed as an
address label or constant. -/
theorem C9_get_offset_or_label (d r : Nat) (name : String) (s0 s1 s2 s3 s4 : Nat)
    (t : Token) (rest : List Token)
    (ht : t.kind ≠ .RightBrace) (hrest : AsmUtil.peekIsLeftBrace rest = false) :
    AsmUtil.get_offset_or_label
        (⟨s1, .IntegerLiteral d⟩ :: ⟨s2, .LeftBrace⟩ :: ⟨s3, .Register r⟩ ::
          ⟨s4, .RightBrace⟩ :: rest) = .ok (.Offset d r, rest)
    ∧ AsmUtil.get_offset_or_label
        (⟨s1, .Plus⟩ :: ⟨s2, .LeftBrace⟩ :: ⟨s3, .Register r⟩ ::
          ⟨s4, .RightBrace⟩ :: rest) = .ok (.Offset 0 r, rest)
    ∧ AsmUtil.get_offset_or_label
        [⟨s1, .IntegerLiteral d⟩, ⟨s2, .LeftBrace⟩, ⟨s3, .Register r⟩, t] =
        .error (AsmUtil.default_error (.ExpectedRightBrace t.kind.strip) t)
    ∧ AsmUtil.get_offset_or_label
        [⟨s1, .IntegerLiteral d⟩, ⟨s2, .LeftBrace⟩, ⟨s3, .Register r⟩] =
        .error ⟨none, .EndOfFile⟩
    ∧ AsmUtil.get_offset_or_label (⟨s0, .Symbol name⟩ :: rest) =
        .ok (.Address (.Label name s0), rest)
    ∧ AsmUtil.get_offset_or_label (⟨s1, .IntegerLiteral d⟩ :: rest) =
        .ok (.Address (.Constant d), rest) := by
  refine ⟨rfl, rfl, ?_, rfl, ?_, ?_⟩
  · simp only [AsmUtil.get_offset_or_label, AsmUtil.get_token, AsmUtil.get_integer,
      AsmUtil.peekIsLeftBrace, AsmUtil.get_register]
    simp [ht]
  · simp only [AsmUtil.get_offset_or_label, AsmUtil.get_token, AsmUtil.get_integer,
      AsmUtil.to_label]
    simp [hrest]
  · simp only [AsmUtil.get_offset_or_label, AsmUtil.get_token, AsmUtil.get_integer,
      AsmUtil.to_label]
    simp [hrest]

theorem C9_get_offset_or_label_witness :
    AsmUtil.get_offset_or_label
        [⟨0, .IntegerLiteral 8⟩, ⟨1, .LeftBrace⟩, ⟨2, .Register 9⟩, ⟨3, .RightBrace⟩,
          ⟨4, .NewLine⟩] = .ok (.Offset 8 9, [⟨4, .NewLine⟩])
    ∧ AsmUtil.get_offset_or_label
        [⟨0, .Plus⟩, ⟨1, .LeftBrace⟩, ⟨2, .Register 9⟩, ⟨3, .RightBrace⟩,
          ⟨4, .NewLine⟩] = .ok (.Offset 0 9, [⟨4, .NewLine⟩])
    ∧ AsmUtil.get_offset_or_label
        [⟨0, .IntegerLiteral 8⟩, ⟨1, .LeftBrace⟩, ⟨2, .Register 9⟩, ⟨9, .Colon⟩] =
        .error (AsmUtil.default_error (.ExpectedRightBrace .Colon) ⟨9, .Colon⟩)
    ∧ AsmUtil.get_offset_or_label
        [⟨0, .IntegerLiteral 8⟩, ⟨1, .LeftBrace⟩, ⟨2, .Register 9⟩] =
        .error ⟨none, .EndOfFile⟩
    ∧ AsmUtil.get_offset_or_label [⟨5, .Symbol "x"⟩, ⟨4, .NewLine⟩] =
        .ok (.Address (.Label "x" 5), [⟨4, .NewLine⟩])
    ∧ AsmUtil.get_offset_or_label [⟨0, .IntegerLiteral 8⟩, ⟨4, .NewLine⟩] =
        .ok (.Address (.Constant 8), [⟨4, .NewLine⟩]) := by
  have h := C9_get_offset_or_label 8 9 "x" 5 0 1 2 3 ⟨9, .Colon⟩ [⟨4, .NewLine⟩]
    (by decide) (by decide)
  exact ⟨h.1, h.2.1, h.2.2.1, h.2.2.2.1, h.2.2.2.2.1, h.2.2.2.2.2⟩

end Titan
